import Mathlib

/-
Verification development for the projection-pushdown pass (reshape/unpivot
handler, `crates/polars-plan/src/plans/optimizer/projection_pushdown/functions/unpivot.rs`)
and the series clipping kernels
(`crates/polars-ops/src/series/ops/clip.rs`).

The plan-side embedding replaces the arena-and-handle representation by a
plain inductive plan tree: the source never mutates an arena entry (rewrites
allocate new entries and reassign the referencing slot), so a rewrite of the
subtree rooted at a node is a pure function from the old subtree to the new
one.  Fallible code returns `Except`.
-/

namespace PPD

/-- Column data types.  A small closed set suffices for the pushdown pass,
which only moves `(name, dtype)` pairs around and never computes on data. -/
inductive DType where
  | boolean
  | int
  | float
  | str
deriving DecidableEq, Repr

/-- Ordered mapping from column name to data type (spec §3 "Schema"). -/
abbrev Schema := List (String × DType)

/-- The names of a schema, in schema order. -/
def schemaNames (s : Schema) : List String := s.map Prod.fst

/-- An expression node: a plain column reference, or a composite/derived
expression with a resolved output name, a result type and an input-column
dependency set (spec §3 "ExprNode"). -/
inductive AExpr where
  | col (name : String)
  | comp (name : String) (ty : DType) (deps : List String)
deriving DecidableEq, Repr

/-- The resolved output name of an expression. -/
def AExpr.output_name : AExpr → String
  | .col n => n
  | .comp n _ _ => n

/-- Whether an expression is a plain column reference. -/
def AExpr.is_col : AExpr → Bool
  | .col _ => true
  | .comp _ _ _ => false

/-- The output type of an expression evaluated against a schema.  A column
reference takes the type recorded in the schema (a column absent from the
schema is never evaluated on the code paths modelled here; it defaults to
`str`); a composite expression carries its result type. -/
def AExpr.dtype_in (e : AExpr) (sch : Schema) : DType :=
  match e with
  | .col n => (List.lookup n sch).getD DType.str
  | .comp _ ty _ => ty

/-- `UnpivotArgsIR`: the reshape parameters, `index` columns kept as-is and
`on` columns melted into key/value pairs, with optional names for the
synthesized key/value columns. -/
structure UnpivotArgsIR where
  «on» : List String
  index : List String
  variable_name : Option String
  value_name : Option String
deriving DecidableEq, Repr

/-- `ProjectionContext`: the accumulated expressions required by the consumer
above the current node, the derived name set for membership tests, and the
auxiliary inner context (spec §3).  The inner context is only threaded
through unchanged by the code modelled here, so it is collapsed to `Unit`. -/
structure ProjectionContext where
  acc_projections : List AExpr
  projected_names : List String
  inner : Unit
deriving DecidableEq, Repr

/-- `ProjectionContext::new`. -/
def ProjectionContext.new (acc : List AExpr) (names : List String) (inner : Unit) :
    ProjectionContext :=
  ⟨acc, names, inner⟩

/-- The context carrying no specific column constraints ("request
everything", spec §4.2 edge case). -/
def ProjectionContext.empty : ProjectionContext := ⟨[], [], ()⟩

/-- Errors of the pass (spec §7): `schemaMismatch` is raised when a required
column is absent from a node's computed schema. -/
inductive PolarsError where
  | schemaMismatch (column : String)
deriving DecidableEq, Repr

/-- Logical plan nodes (spec §3 "PlanNode"): a source scan with a fixed
schema, the reshape (unpivot) node, and a simple projection node over an
ordered expression list (the node produced by `project_simple_nodes`). -/
inductive IR where
  | dfscan (schema : Schema)
  | unpivot (args : UnpivotArgsIR) (input : IR)
  | simple_project (exprs : List AExpr) (input : IR)
deriving DecidableEq, Repr

/-- Rank used to order types for supertype computation. -/
def DType.rank : DType → Nat
  | .boolean => 0
  | .int => 1
  | .float => 2
  | .str => 3

/-- The supertype of two data types (the larger by rank). -/
def superType (a b : DType) : DType := if a.rank ≤ b.rank then b else a

/-- The supertype of a list of data types. -/
def superTypeList (ts : List DType) : DType := ts.foldl superType DType.boolean

/-- Modelled from the spec: the Plan Builder's schema recomputation for a
reshape node (§4.4, §4.3 step 6), which is not under `src/`.  The output
keeps the `index` columns (with their types from the input schema), then the
synthesized key column (default name `variable`, string-typed) and value
column (default name `value`, typed as the supertype of the `on` columns'
types).  An `index` name absent from the input schema contributes no column
(such a node is only produced by an invariant violation, spec §4.3). -/
def unpivot_schema (args : UnpivotArgsIR) (input_schema : Schema) : Schema :=
  (args.index.filterMap fun n => (List.lookup n input_schema).map fun ty => (n, ty))
  ++ [(args.variable_name.getD "variable", DType.str),
      (args.value_name.getD "value",
        superTypeList (args.«on».filterMap fun n => List.lookup n input_schema))]

/-- The schema of a plan node, recomputed from its kind, its child's schema
and its parameters (spec §3 "Schema"). -/
def IR.schema : IR → Schema
  | .dfscan s => s
  | .unpivot args input => unpivot_schema args input.schema
  | .simple_project exprs input =>
      exprs.map fun e => (e.output_name, e.dtype_in input.schema)

/-- Whether an expression can be forwarded unchanged to a child with the
given schema: a plain column reference whose column exists in the child's
schema.  Composite expressions must be evaluated after the node under
construction and are never forwardable (spec §4.2). -/
def is_forwardable (e : AExpr) (down_schema : Schema) : Bool :=
  match e with
  | .col n => (schemaNames down_schema).contains n
  | .comp _ _ _ => false

/-- Modelled from the spec: `split_acc_projections` (§4.2), which is not
under `src/`.  Partitions the accumulated required expressions against the
child's schema into the forwardable group, the local group (in input order)
and the flattened name set of the forwardable group.  An empty accumulated
set yields three empty results. -/
def split_acc_projections (acc_projections : List AExpr) (down_schema : Schema) :
    List AExpr × List AExpr × List String :=
  let fwd := acc_projections.filter fun e => is_forwardable e down_schema
  let locl := acc_projections.filter fun e => !is_forwardable e down_schema
  (fwd, locl, fwd.map AExpr.output_name)

/-- Modelled from the spec: `add_str_to_accumulated`, which is not under
`src/`.  Adds a plain column requirement to a context, unless the context is
empty — an empty accumulated set signals "no specific columns requested",
which must keep meaning "request everything" (§4.2 edge case) — or the
column is already requested. -/
def add_str_to_accumulated (name : String) (ctx : ProjectionContext) :
    ProjectionContext :=
  if ctx.acc_projections.isEmpty then ctx
  else if ctx.projected_names.contains name then ctx
  else
    { ctx with
        acc_projections := ctx.acc_projections ++ [AExpr.col name],
        projected_names := ctx.projected_names ++ [name] }

/-- The context `process_unpivot` hands to its child in the static branch
(`unpivot.rs` lines 17–35): the forwardable group and its names from the
split, with every `index` and every `on` column name added. -/
def unpivot_child_ctx (args : UnpivotArgsIR) (input_schema : Schema)
    (ctx : ProjectionContext) : ProjectionContext :=
  let s := split_acc_projections ctx.acc_projections input_schema
  let ctx1 := ProjectionContext.new s.1 s.2.2 ctx.inner
  let ctx2 := args.index.foldl (fun c name => add_str_to_accumulated name c) ctx1
  args.«on».foldl (fun c name => add_str_to_accumulated name c) ctx2

/-- The local projection list of the static branch (`unpivot.rs` lines
17–26): the local group of the split, extended with the forwardable group
when non-empty. -/
def unpivot_locals (ctx : ProjectionContext) (input_schema : Schema) : List AExpr :=
  let s := split_acc_projections ctx.acc_projections input_schema
  if s.2.1.isEmpty then s.2.1 else s.2.1 ++ s.1

/-- Modelled from the spec: `no_pushdown_restart_opt` (§4.1), which is not
under `src/`.  The restart fallback discards the context's column
constraints, recurses into the child as if pushdown had not started (an
empty context: request everything), and reassembles the unmodified node atop
the result. -/
def no_pushdown_restart_opt (rec_input : ProjectionContext → Except PolarsError IR)
    (args : UnpivotArgsIR) (input : IR) (ctx : ProjectionContext) :
    Except PolarsError IR :=
  (rec_input ProjectionContext.empty).map fun input' => IR.unpivot args input'

/-- Translation of `process_unpivot` (`unpivot.rs` lines 4–53).  `rec_input`
is the recursive pushdown into the child (`pushdown_and_assign` applied to
`input`); the arena-slot reassignment of the source becomes returning the
rewritten node.  Empty `on` takes the restart fallback; otherwise the
accumulated projections are split against the child's schema, the local
group (extended by the forwardable group when non-empty) is retained, the
child is rewritten under the child context, the unpivot node is re-made so
that its schema is updated, and a simple projection applying the local list
is wrapped around it unless that list is empty. -/
def process_unpivot (rec_input : ProjectionContext → Except PolarsError IR)
    (args : UnpivotArgsIR) (input : IR) (ctx : ProjectionContext) :
    Except PolarsError IR :=
  if args.«on».isEmpty then
    no_pushdown_restart_opt rec_input args input ctx
  else
    let local_projections := unpivot_locals ctx input.schema
    (rec_input (unpivot_child_ctx args input.schema ctx)).map fun input' =>
      let lp := IR.unpivot args input'
      if local_projections.isEmpty then lp
      else IR.simple_project local_projections lp

/-- Pruning one required expression at a source scan: the expression must be
a plain column present in the scan's schema (spec §7 `schemaMismatch`
otherwise). -/
def scan_prune_col (s : Schema) (e : AExpr) : Except PolarsError (String × DType) :=
  match e with
  | .col n =>
    match List.lookup n s with
    | some ty => Except.ok (n, ty)
    | none => Except.error (PolarsError.schemaMismatch n)
  | .comp n _ _ => Except.error (PolarsError.schemaMismatch n)

/-- Modelled from the spec: the Pushdown Pass driver `pushdown_and_assign`
(§4.1), which is not under `src/`.  It dispatches on the node kind: a source
scan materializes exactly the requested columns (all columns when the
context is empty), the reshape node dispatches to `process_unpivot`, and the
simple projection node — a kind with no handler modelled here — takes the
restart fallback: its child is rewritten under an empty context and the node
is kept unchanged. -/
def pushdown_and_assign : IR → ProjectionContext → Except PolarsError IR
  | .dfscan s, ctx =>
    if ctx.acc_projections.isEmpty then Except.ok (IR.dfscan s)
    else (ctx.acc_projections.mapM (scan_prune_col s)).map IR.dfscan
  | .unpivot args input, ctx =>
    process_unpivot (fun c => pushdown_and_assign input c) args input ctx
  | .simple_project exprs input, _ctx =>
    (pushdown_and_assign input ProjectionContext.empty).map
      fun input' => IR.simple_project exprs input'

/-- Modelled from the spec: the "direct interpretation of R against the
original plan's root schema" (§8 schema preservation).  An empty required
set means every column of the schema; otherwise each required expression in
order, with its output name and its type against that schema. -/
def interp_required (acc : List AExpr) (sch : Schema) : Schema :=
  if acc.isEmpty then sch
  else acc.map fun e => (e.output_name, e.dtype_in sch)

/-- A context is coherent when its accumulated expressions are plain column
references and its name set is exactly their output names in order — the
shape every context constructed by the pass has (spec §3). -/
def coherent (ctx : ProjectionContext) : Prop :=
  ctx.acc_projections.all AExpr.is_col = true ∧
  ctx.projected_names = ctx.acc_projections.map AExpr.output_name

instance (ctx : ProjectionContext) : Decidable (coherent ctx) :=
  inferInstanceAs (Decidable (_ ∧ _))

end PPD

namespace Clip

/-
Embedding of `crates/polars-ops/src/series/ops/clip.rs`.  Machine numerics
are modelled as unbounded integers: clipping only compares and selects
values, so only the ordering matters; dtype-width constraints surface in the
strict cast of the bounds, modelled as a range check.
-/

/-- Series data types: the primitive numerics, two non-numeric types, and
the logical types (`date` over `int32`, `datetime` over `int64`,
`decimal` over `int128`).  A materialized decimal series always carries a
concrete scale, so the scale is a plain `Nat`. -/
inductive DataType where
  | int8
  | int32
  | int64
  | int128
  | float64
  | boolean
  | string
  | date
  | datetime
  | decimal (precision : Option Nat) (scale : Nat)
deriving DecidableEq, Repr

/-- `DataType::to_physical`: logical types map to their physical storage
type, physical types map to themselves. -/
def DataType.to_physical : DataType → DataType
  | .date => .int32
  | .datetime => .int64
  | .decimal _ _ => .int128
  | d => d

/-- `DataType::is_primitive_numeric`. -/
def DataType.is_primitive_numeric : DataType → Bool
  | .int8 | .int32 | .int64 | .int128 | .float64 => true
  | _ => false

/-- `DataType::is_logical`. -/
def DataType.is_logical : DataType → Bool
  | .date | .datetime | .decimal _ _ => true
  | _ => false

/-- Whether an integer value fits the given data type (used by the strict
cast).  Logical types accept what their physical type accepts; the modelled
`float64` accepts every modelled integer; non-numeric types accept
nothing. -/
def DataType.in_range (d : DataType) (v : Int) : Bool :=
  match d.to_physical with
  | .int8 => decide (-128 ≤ v ∧ v ≤ 127)
  | .int32 => decide (-(2 ^ 31) ≤ v ∧ v ≤ 2 ^ 31 - 1)
  | .int64 => decide (-(2 ^ 63) ≤ v ∧ v ≤ 2 ^ 63 - 1)
  | .int128 => decide (-(2 ^ 127) ≤ v ∧ v ≤ 2 ^ 127 - 1)
  | .float64 => true
  | _ => false

/-- Errors: the `polars_ensure!` failures of `clip.rs` and the failure of
the external strict cast.  `lengthMismatch` carries the reported operation
name, the two lengths, and — for the three-argument `clip` — the argument
name and index. -/
inductive PolarsError where
  | invalidOperation (msg : String)
  | lengthMismatch (op : String) (length : Nat) (n : Nat)
      (argument : Option String) (argument_idx : Option Nat)
  | strictCastFailed (target : DataType)
deriving DecidableEq, Repr

/-- A series: a data type and a list of nullable elements. -/
structure Series where
  dtype : DataType
  values : List (Option Int)
deriving DecidableEq, Repr

/-- `Series::len`. -/
def Series.len (s : Series) : Nat := s.values.length

/-- Modelled from the spec: the external cast collaborator
`Series::strict_cast` (the spec's §1/§6 out-of-scope compute layer).  Every
non-null element must fit the target type, else the cast fails; values are
preserved. -/
def strict_cast (s : Series) (target : DataType) : Except PolarsError Series :=
  if s.values.all fun v =>
      match v with
      | none => true
      | some x => target.in_range x then
    Except.ok ⟨target, s.values⟩
  else Except.error (PolarsError.strictCastFailed target)

/-- Modelled from the spec: the external `Series::to_physical_repr`
collaborator; the dtype drops to its physical type, values are untouched. -/
def to_physical_repr (s : Series) : Series := ⟨s.dtype.to_physical, s.values⟩

/-- Modelled from the spec: the external `unary_elementwise` kernel — map
over the nullable elements. -/
def unary_elementwise (ca : List (Option Int)) (f : Option Int → Option Int) :
    List (Option Int) :=
  ca.map f

/-- Modelled from the spec: the external `binary_elementwise` kernel —
position-wise zip of two nullable streams. -/
def binary_elementwise (ca cb : List (Option Int))
    (f : Option Int → Option Int → Option Int) : List (Option Int) :=
  List.zipWith f ca cb

/-- Modelled from the spec: the external `ternary_elementwise` kernel —
position-wise zip of three nullable streams. -/
def ternary_elementwise : List (Option Int) → List (Option Int) →
    List (Option Int) → (Option Int → Option Int → Option Int → Option Int) →
    List (Option Int)
  | a :: as, b :: bs, c :: cs, f => f a b c :: ternary_elementwise as bs cs f
  | _, _, _, _ => []

/-- `num_traits::clamp` (release semantics): lower bound applied first. -/
def clamp (v lo hi : Int) : Int := if v < lo then lo else if v > hi then hi else v

/-- `num_traits::clamp_min`. -/
def clamp_min (v lo : Int) : Int := if v < lo then lo else v

/-- `num_traits::clamp_max`. -/
def clamp_max (v hi : Int) : Int := if v > hi then hi else v

/-- Translation of `clip_unary` (`clip.rs` lines 171–177). -/
def clip_unary (ca : List (Option Int)) (op : Int → Int) : List (Option Int) :=
  unary_elementwise ca fun v => v.map op

/-- Translation of `clip_binary` (`clip.rs` lines 179–190): a null bound
passes the value through, a null value stays null. -/
def clip_binary (ca bound : List (Option Int)) (op : Int → Int → Int) :
    List (Option Int) :=
  binary_elementwise ca bound fun opt_s opt_bound =>
    match opt_s, opt_bound with
    | some s, some b => some (op s b)
    | some s, none => some s
    | none, _ => none

/-- Translation of `clip_ternary` (`clip.rs` lines 192–210). -/
def clip_ternary (ca mi ma : List (Option Int)) : List (Option Int) :=
  ternary_elementwise ca mi ma fun opt_v opt_min opt_max =>
    match opt_v, opt_min, opt_max with
    | some v, some lo, some hi => some (clamp v lo hi)
    | some v, some lo, none => some (clamp_min v lo)
    | some v, none, some hi => some (clamp_max v hi)
    | some v, none, none => some v
    | none, _, _ => none

/-- Translation of `clip_helper_both_bounds` (`clip.rs` lines 124–150),
dispatching on the bound lengths; `get(0)` of a length-1 chunked array is
its single nullable element. -/
def clip_helper_both_bounds (ca mi ma : List (Option Int)) : List (Option Int) :=
  if mi.length = 1 then
    if ma.length = 1 then
      match mi.getD 0 none, ma.getD 0 none with
      | some lo, some hi => clip_unary ca fun v => clamp v lo hi
      | some lo, none => clip_unary ca fun v => clamp_min v lo
      | none, some hi => clip_unary ca fun v => clamp_max v hi
      | none, none => ca
    else
      match mi.getD 0 none with
      | some lo => clip_binary ca ma fun v b => clamp v lo b
      | none => clip_binary ca ma clamp_max
  else if ma.length = 1 then
    match ma.getD 0 none with
    | some hi => clip_binary ca mi fun v b => clamp v b hi
    | none => clip_binary ca mi clamp_min
  else clip_ternary ca mi ma

/-- Translation of `clip_helper_single_bound` (`clip.rs` lines 152–169). -/
def clip_helper_single_bound (ca bound : List (Option Int))
    (op : Int → Int → Int) : List (Option Int) :=
  if bound.length = 1 then
    match bound.getD 0 none with
    | some b => clip_unary ca fun v => op v b
    | none => ca
  else clip_binary ca bound op

/-- The common broadcast length of `clip` (`clip.rs` lines 11–14): the
first of the three lengths that differs from 1, or 1 if all are 1. -/
def broadcast_len (a b c : Nat) : Nat :=
  (([a, b, c].find? fun l => l != 1).getD 1)

/-- The dtype-restoring step shared by the three clip functions (`clip.rs`
lines 44–52, 78–86, 112–120): a decimal is rebuilt from the physical output
with the same precision and scale, a logical type is cast back (value
preserving on these integer-backed types), and a plain physical type passes
through. -/
def restore_original (original_type : DataType) (out : List (Option Int)) : Series :=
  match original_type with
  | .decimal precision scale => ⟨.decimal precision scale, out⟩
  | dt => if dt.is_logical then ⟨dt, out⟩ else ⟨dt, out⟩

/-- Translation of `clip` (`clip.rs` lines 6–54). -/
def clip (s mi ma : Series) : Except PolarsError Series :=
  if !s.dtype.to_physical.is_primitive_numeric then
    Except.error (PolarsError.invalidOperation "`clip` only supports physical numeric types")
  else
    let n := broadcast_len s.len mi.len ma.len
    if !(s.len == n || s.len == 1) then
      Except.error (PolarsError.lengthMismatch "clip" s.len n (some "self") (some 0))
    else if !(mi.len == n || mi.len == 1) then
      Except.error (PolarsError.lengthMismatch "clip" mi.len n (some "min") (some 1))
    else if !(ma.len == n || ma.len == 1) then
      Except.error (PolarsError.lengthMismatch "clip" ma.len n (some "max") (some 2))
    else do
      let original_type := s.dtype
      let mi2 ← strict_cast mi s.dtype
      let ma2 ← strict_cast ma s.dtype
      let sp := to_physical_repr s
      let mip := to_physical_repr mi2
      let maP := to_physical_repr ma2
      let out := clip_helper_both_bounds sp.values mip.values maP.values
      Except.ok (restore_original original_type out)

/-- Translation of `clip_max` (`clip.rs` lines 57–88). -/
def clip_max (s ma : Series) : Except PolarsError Series :=
  if !s.dtype.to_physical.is_primitive_numeric then
    Except.error (PolarsError.invalidOperation "`clip` only supports physical numeric types")
  else if !(s.len == ma.len || s.len == 1 || ma.len == 1) then
    Except.error (PolarsError.lengthMismatch "clip(max)" s.len ma.len none none)
  else do
    let original_type := s.dtype
    let ma2 ← strict_cast ma s.dtype
    let sp := to_physical_repr s
    let maP := to_physical_repr ma2
    let out := clip_helper_single_bound sp.values maP.values clamp_max
    Except.ok (restore_original original_type out)

/-- Translation of `clip_min` (`clip.rs` lines 91–122). -/
def clip_min (s mi : Series) : Except PolarsError Series :=
  if !s.dtype.to_physical.is_primitive_numeric then
    Except.error (PolarsError.invalidOperation "`clip` only supports physical numeric types")
  else if !(s.len == mi.len || s.len == 1 || mi.len == 1) then
    Except.error (PolarsError.lengthMismatch "clip(min)" s.len mi.len none none)
  else do
    let original_type := s.dtype
    let mi2 ← strict_cast mi s.dtype
    let sp := to_physical_repr s
    let mip := to_physical_repr mi2
    let out := clip_helper_single_bound sp.values mip.values clamp_min
    Except.ok (restore_original original_type out)

end Clip

/-- Decidable equality of `Except` results, for evaluating the embedded
functions on concrete inputs. -/
instance {ε α : Type} [DecidableEq ε] [DecidableEq α] :
    DecidableEq (Except ε α) := fun a b =>
  match a, b with
  | .ok x, .ok y =>
    if h : x = y then .isTrue (by rw [h])
    else .isFalse fun hc => h (Except.ok.inj hc)
  | .error x, .error y =>
    if h : x = y then .isTrue (by rw [h])
    else .isFalse fun hc => h (Except.error.inj hc)
  | .ok _, .error _ => .isFalse fun hc => Except.noConfusion hc
  | .error _, .ok _ => .isFalse fun hc => Except.noConfusion hc

namespace PPD

/- Concrete instances used to exercise the definitions: the spec §8 scenario
(reshape with `index=[id]`, `on=[year2020, year2021]` over a source with
schema `{id, year2020, year2021}`). -/

/-- The scenario's reshape arguments. -/
def scArgs : UnpivotArgsIR := ⟨["year2020", "year2021"], ["id"], none, none⟩

/-- The scenario's source schema. -/
def scSchema : Schema :=
  [("id", DType.int), ("year2020", DType.int), ("year2021", DType.int)]

/-- The scenario plan: the reshape over the source. -/
def scPlan : IR := IR.unpivot scArgs (IR.dfscan scSchema)

/-- The scenario's parent requirement: columns `{id, value}`. -/
def scCtx : ProjectionContext :=
  ⟨[AExpr.col "id", AExpr.col "value"], ["id", "value"], ()⟩

/-- A context requiring only column `id`. -/
def scCtxId : ProjectionContext := ⟨[AExpr.col "id"], ["id"], ()⟩

/-- Reshape arguments with an empty `on` list (the dynamic branch). -/
def dynArgs : UnpivotArgsIR := ⟨[], ["id"], none, none⟩

/-- Reshape arguments whose single `on` column `zzz` is absent from the
one-column source `{id}` — pushing down its context fails at the source. -/
def badArgs : UnpivotArgsIR := ⟨["zzz"], [], none, none⟩

/-- The one-column source for the failing example. -/
def badSchema : Schema := [("id", DType.int)]

end PPD

namespace PPD

/- Basic lemmas about lookups and schema names. -/

theorem lookup_isSome_iff (n : String) (s : Schema) :
    (List.lookup n s).isSome = true ↔ n ∈ schemaNames s := by
  induction s with
  | nil => simp [List.lookup, schemaNames]
  | cons p t ih =>
    obtain ⟨m, ty⟩ := p
    by_cases h : n = m
    · subst h
      simp [List.lookup, schemaNames]
    · have hbeq : (n == m) = false := by
        simp [h]
      simpa [List.lookup, schemaNames, hbeq, h] using ih

theorem lookup_mem (n : String) (ty : DType) (s : Schema)
    (h : List.lookup n s = some ty) : (n, ty) ∈ s := by
  induction s with
  | nil => simp [List.lookup] at h
  | cons p t ih =>
    obtain ⟨m, b⟩ := p
    by_cases hm : n = m
    · subst hm
      simp [List.lookup] at h
      simp [h]
    · have hbeq : (n == m) = false := by simp [hm]
      simp [List.lookup, hbeq] at h
      simp [ih h]

end PPD

namespace PPD

/- Lemmas about `add_str_to_accumulated` and its folds. -/

theorem add_str_acc_nil_iff (name : String) (ctx : ProjectionContext) :
    (add_str_to_accumulated name ctx).acc_projections = [] ↔
      ctx.acc_projections = [] := by
  cases hacc : ctx.acc_projections with
  | nil => simp [add_str_to_accumulated, hacc]
  | cons e es =>
    by_cases h2 : name ∈ ctx.projected_names
    · simp [add_str_to_accumulated, hacc, h2]
    · simp [add_str_to_accumulated, hacc, h2]

theorem add_str_of_acc_nil (name : String) (ctx : ProjectionContext)
    (h : ctx.acc_projections = []) : add_str_to_accumulated name ctx = ctx := by
  simp [add_str_to_accumulated, h]

theorem fold_add_str_of_acc_nil (l : List String) (ctx : ProjectionContext)
    (h : ctx.acc_projections = []) :
    l.foldl (fun c name => add_str_to_accumulated name c) ctx = ctx := by
  induction l with
  | nil => rfl
  | cons n t ih => simp [add_str_of_acc_nil n ctx h, ih]

theorem add_str_names_mono (name m : String) (ctx : ProjectionContext)
    (h : m ∈ ctx.projected_names) :
    m ∈ (add_str_to_accumulated name ctx).projected_names := by
  unfold add_str_to_accumulated
  by_cases h1 : ctx.acc_projections.isEmpty
  · simpa [h1]
  · by_cases h2 : name ∈ ctx.projected_names
    · simpa [h1, h2]
    · simp [h1, h2, h]

theorem add_str_mem_names (name : String) (ctx : ProjectionContext)
    (h : ctx.acc_projections ≠ []) :
    name ∈ (add_str_to_accumulated name ctx).projected_names := by
  unfold add_str_to_accumulated
  have h1 : ctx.acc_projections.isEmpty = false := by
    simpa [List.isEmpty_iff] using h
  by_cases h2 : name ∈ ctx.projected_names
  · simp [h1, h2]
  · simp [h1, h2]

theorem fold_add_str_names_mono (l : List String) (ctx : ProjectionContext)
    (m : String) (h : m ∈ ctx.projected_names) :
    m ∈ (l.foldl (fun c name => add_str_to_accumulated name c) ctx).projected_names := by
  induction l generalizing ctx with
  | nil => simpa
  | cons n t ih =>
    simp only [List.foldl_cons]
    exact ih _ (add_str_names_mono n m ctx h)

theorem fold_add_str_acc_nil_iff (l : List String) (ctx : ProjectionContext) :
    (l.foldl (fun c name => add_str_to_accumulated name c) ctx).acc_projections = [] ↔
      ctx.acc_projections = [] := by
  induction l generalizing ctx with
  | nil => simp
  | cons n t ih =>
    simp only [List.foldl_cons]
    rw [ih]
    exact add_str_acc_nil_iff n ctx

theorem fold_add_str_mem_names (l : List String) (ctx : ProjectionContext)
    (h : ctx.acc_projections ≠ []) (n : String) (hn : n ∈ l) :
    n ∈ (l.foldl (fun c name => add_str_to_accumulated name c) ctx).projected_names := by
  induction l generalizing ctx with
  | nil => cases hn
  | cons m t ih =>
    simp only [List.foldl_cons]
    rcases List.mem_cons.mp hn with he | ht
    · subst he
      exact fold_add_str_names_mono t _ n (add_str_mem_names n ctx h)
    · refine ih _ ?_ ht
      simpa [add_str_acc_nil_iff] using h

end PPD

namespace PPD

/- Coherence of contexts built by the pass. -/

theorem all_is_col_map (l : List AExpr) (h : l.all AExpr.is_col = true) :
    l = (l.map AExpr.output_name).map AExpr.col := by
  induction l with
  | nil => rfl
  | cons e es ih =>
    simp only [List.all_cons, Bool.and_eq_true] at h
    obtain ⟨he, hes⟩ := h
    cases e with
    | col n => simpa [AExpr.output_name] using ih hes
    | comp n ty deps => simp [AExpr.is_col] at he

theorem coherent_acc_eq (ctx : ProjectionContext) (h : coherent ctx) :
    ctx.acc_projections = ctx.projected_names.map AExpr.col := by
  obtain ⟨hcol, hnames⟩ := h
  rw [hnames]
  exact all_is_col_map _ hcol

theorem add_str_coherent (name : String) (ctx : ProjectionContext)
    (h : coherent ctx) : coherent (add_str_to_accumulated name ctx) := by
  obtain ⟨hcol, hnames⟩ := h
  unfold add_str_to_accumulated
  by_cases h1 : ctx.acc_projections.isEmpty
  · rw [if_pos h1]
    exact ⟨hcol, hnames⟩
  · rw [if_neg h1]
    by_cases h2 : ctx.projected_names.contains name
    · rw [if_pos h2]
      exact ⟨hcol, hnames⟩
    · rw [if_neg h2]
      constructor
      · simpa [List.all_append, AExpr.is_col] using hcol
      · simp [hnames, AExpr.output_name, List.map_append]

theorem fold_add_str_coherent (l : List String) (ctx : ProjectionContext)
    (h : coherent ctx) :
    coherent (l.foldl (fun c name => add_str_to_accumulated name c) ctx) := by
  induction l generalizing ctx with
  | nil => simpa
  | cons n t ih =>
    simp only [List.foldl_cons]
    exact ih _ (add_str_coherent n ctx h)

theorem split_fst_coherent (acc : List AExpr) (sch : Schema) (inner : Unit) :
    coherent (ProjectionContext.new (split_acc_projections acc sch).1
      (split_acc_projections acc sch).2.2 inner) := by
  constructor
  · simp only [split_acc_projections, ProjectionContext.new, List.all_eq_true]
    intro e he
    have := (List.mem_filter.mp he).2
    cases e with
    | col n => rfl
    | comp n ty deps => simp [is_forwardable] at this
  · rfl

theorem unpivot_child_ctx_coherent (args : UnpivotArgsIR) (sch : Schema)
    (ctx : ProjectionContext) : coherent (unpivot_child_ctx args sch ctx) := by
  unfold unpivot_child_ctx
  exact fold_add_str_coherent _ _ (fold_add_str_coherent _ _
    (split_fst_coherent ctx.acc_projections sch ctx.inner))

end PPD

namespace PPD

/- The pass under an unconstrained context ("request everything") leaves
every plan unchanged. -/

theorem split_nil (sch : Schema) : split_acc_projections [] sch = ([], [], []) := rfl

theorem unpivot_child_ctx_acc_nil (args : UnpivotArgsIR) (sch : Schema)
    (ctx : ProjectionContext) (h : ctx.acc_projections = []) :
    (unpivot_child_ctx args sch ctx).acc_projections = [] := by
  unfold unpivot_child_ctx
  simp [fold_add_str_acc_nil_iff, h, split_acc_projections, ProjectionContext.new]

theorem unpivot_locals_of_acc_nil (ctx : ProjectionContext) (sch : Schema)
    (h : ctx.acc_projections = []) : unpivot_locals ctx sch = [] := by
  simp [unpivot_locals, split_acc_projections, h]

theorem pushdown_empty (P : IR) (ctx : ProjectionContext)
    (h : ctx.acc_projections = []) :
    pushdown_and_assign P ctx = Except.ok P := by
  induction P generalizing ctx with
  | dfscan s => simp [pushdown_and_assign, h]
  | unpivot args input ih =>
    simp only [pushdown_and_assign]
    unfold process_unpivot
    by_cases hOn : args.«on».isEmpty
    · simp only [if_pos hOn]
      unfold no_pushdown_restart_opt
      simp only [ih ProjectionContext.empty rfl]
      rfl
    · simp only [if_neg hOn]
      simp only [ih _ (unpivot_child_ctx_acc_nil args input.schema ctx h)]
      simp [unpivot_locals_of_acc_nil ctx input.schema h, Except.map]
  | simple_project exprs input ih =>
    simp only [pushdown_and_assign]
    rw [ih ProjectionContext.empty rfl]
    rfl

end PPD

namespace PPD

/- Supporting lemmas for the survival of requested names. -/

theorem schemaNames_append (a b : Schema) :
    schemaNames (a ++ b) = schemaNames a ++ schemaNames b := by
  simp [schemaNames]

theorem mem_index_part_names (index : List String) (s0 : Schema) (n : String) :
    n ∈ schemaNames
        (index.filterMap fun m => (List.lookup m s0).map fun ty => (m, ty)) ↔
      n ∈ index ∧ n ∈ schemaNames s0 := by
  constructor
  · intro h
    obtain ⟨p, hp, hfst⟩ := List.mem_map.mp h
    obtain ⟨m, hm, hf⟩ := List.mem_filterMap.mp hp
    obtain ⟨ty, hty, hpe⟩ := Option.map_eq_some'.mp hf
    subst hpe
    cases hfst
    refine ⟨hm, ?_⟩
    rw [← lookup_isSome_iff, hty]
    rfl
  · rintro ⟨hidx, hs⟩
    rw [← lookup_isSome_iff] at hs
    obtain ⟨ty, hty⟩ := Option.isSome_iff_exists.mp hs
    exact List.mem_map.mpr
      ⟨(n, ty), List.mem_filterMap.mpr ⟨n, hidx, by rw [hty]; rfl⟩, rfl⟩

theorem mem_unpivot_schema_names (args : UnpivotArgsIR) (s0 : Schema) (n : String) :
    n ∈ schemaNames (unpivot_schema args s0) ↔
      (n ∈ args.index ∧ n ∈ schemaNames s0) ∨
        n = args.variable_name.getD "variable" ∨
        n = args.value_name.getD "value" := by
  unfold unpivot_schema
  rw [schemaNames_append, List.mem_append, mem_index_part_names]
  simp [schemaNames]

theorem mapM_scan_prune_names (s : Schema) (exprs : List AExpr)
    (l : List (String × DType))
    (h : exprs.mapM (scan_prune_col s) = Except.ok l) :
    schemaNames l = exprs.map AExpr.output_name := by
  induction exprs generalizing l with
  | nil =>
    simp only [List.mapM_nil, pure] at h
    cases h
    rfl
  | cons e t ih =>
    rw [List.mapM_cons] at h
    cases he : scan_prune_col s e with
    | error err =>
      rw [he] at h
      simp [Bind.bind, Except.bind] at h
    | ok p =>
      rw [he] at h
      cases ht : t.mapM (scan_prune_col s) with
      | error err =>
        rw [ht] at h
        simp [Bind.bind, Except.bind, pure, Except.pure] at h
      | ok tl =>
        rw [ht] at h
        simp only [Bind.bind, Except.bind, pure, Except.pure, Except.ok.injEq] at h
        subst h
        have hfst : p.1 = e.output_name := by
          cases e with
          | col m =>
            simp only [scan_prune_col] at he
            cases hl : List.lookup m s with
            | none => rw [hl] at he; cases he
            | some ty =>
              rw [hl] at he
              cases he
              rfl
          | comp m ty deps =>
            simp only [scan_prune_col] at he
            cases he
        have htl := ih tl ht
        simp only [schemaNames] at htl ⊢
        simp [htl, hfst]

theorem unpivot_locals_isEmpty_iff (ctx : ProjectionContext) (sch : Schema) :
    (unpivot_locals ctx sch).isEmpty = true ↔
      (split_acc_projections ctx.acc_projections sch).2.1 = [] := by
  unfold unpivot_locals
  by_cases h : (split_acc_projections ctx.acc_projections sch).2.1.isEmpty
  · rw [if_pos h]
    exact ⟨fun _ => List.isEmpty_iff.mp h, fun _ => h⟩
  · rw [if_neg h]
    rw [List.isEmpty_iff] at h
    constructor
    · intro hh
      rw [List.isEmpty_iff, List.append_eq_nil] at hh
      exact hh.1
    · intro hh
      exact absurd hh h

theorem unpivot_child_ctx_names_mono (args : UnpivotArgsIR) (sch : Schema)
    (ctx : ProjectionContext) (n : String)
    (h : n ∈ (split_acc_projections ctx.acc_projections sch).2.2) :
    n ∈ (unpivot_child_ctx args sch ctx).projected_names := by
  unfold unpivot_child_ctx
  exact fold_add_str_names_mono _ _ _ (fold_add_str_names_mono _ _ _ h)

theorem unpivot_child_ctx_mem_index_on (args : UnpivotArgsIR) (sch : Schema)
    (ctx : ProjectionContext) (n : String)
    (hne : (unpivot_child_ctx args sch ctx).acc_projections ≠ [])
    (hn : n ∈ args.index ++ args.«on») :
    n ∈ (unpivot_child_ctx args sch ctx).projected_names := by
  unfold unpivot_child_ctx at *
  set c1 := ProjectionContext.new (split_acc_projections ctx.acc_projections sch).1
    (split_acc_projections ctx.acc_projections sch).2.2 ctx.inner with hc1
  set c2 := args.index.foldl (fun c name => add_str_to_accumulated name c) c1 with hc2
  have hc2ne : c2.acc_projections ≠ [] := by
    intro hcon
    exact hne ((fold_add_str_acc_nil_iff _ _).mpr hcon)
  have hc1ne : c1.acc_projections ≠ [] := by
    intro hcon
    exact hc2ne ((fold_add_str_acc_nil_iff _ _).mpr hcon)
  rcases List.mem_append.mp hn with hidx | hon
  · exact fold_add_str_names_mono _ _ _ (fold_add_str_mem_names _ _ hc1ne n hidx)
  · exact fold_add_str_mem_names _ _ hc2ne n hon

theorem mem_filter_split (e : AExpr) (acc : List AExpr) (sch : Schema)
    (h : e ∈ acc) :
    e ∈ (split_acc_projections acc sch).2.1 ++ (split_acc_projections acc sch).1 := by
  unfold split_acc_projections
  by_cases hf : is_forwardable e sch
  · simp only [List.mem_append]
    exact Or.inr (List.mem_filter.mpr ⟨h, hf⟩)
  · simp only [List.mem_append]
    refine Or.inl (List.mem_filter.mpr ⟨h, ?_⟩)
    simpa using hf

theorem pushdown_unpivot_eq (args : UnpivotArgsIR) (input : IR)
    (ctx : ProjectionContext) :
    pushdown_and_assign (IR.unpivot args input) ctx =
      if args.«on».isEmpty then
        (pushdown_and_assign input ProjectionContext.empty).map
          fun input' => IR.unpivot args input'
      else
        (pushdown_and_assign input (unpivot_child_ctx args input.schema ctx)).map
          fun input' =>
            if (unpivot_locals ctx input.schema).isEmpty then IR.unpivot args input'
            else IR.simple_project (unpivot_locals ctx input.schema)
              (IR.unpivot args input') := by
  simp only [pushdown_and_assign]
  unfold process_unpivot no_pushdown_restart_opt
  by_cases hOn : args.«on».isEmpty <;> simp [hOn]

end PPD

namespace PPD

/-- Invariant (spec §3 invariant (b)): a column requested by a coherent
context (or any column, when the context is unconstrained) that exists in a
node's schema is still present in the schema of the rewritten node. -/
theorem requested_name_in_result (P : IR) : ∀ (ctx : ProjectionContext) (Q : IR)
    (n : String), coherent ctx →
    (ctx.acc_projections = [] ∨ n ∈ ctx.projected_names) →
    n ∈ schemaNames P.schema →
    pushdown_and_assign P ctx = Except.ok Q →
    n ∈ schemaNames Q.schema := by
  induction P with
  | dfscan s =>
    intro ctx Q n hco hreq hmem hok
    by_cases hnil : ctx.acc_projections = []
    · rw [pushdown_empty _ _ hnil] at hok
      have hQ := Except.ok.inj hok
      subst hQ
      exact hmem
    · have hn : n ∈ ctx.projected_names := hreq.resolve_left hnil
      simp only [pushdown_and_assign] at hok
      rw [if_neg (by simpa [List.isEmpty_iff] using hnil)] at hok
      cases hm : ctx.acc_projections.mapM (scan_prune_col s) with
      | error e =>
        rw [hm] at hok
        simp only [Except.map] at hok
        cases hok
      | ok l =>
        rw [hm] at hok
        simp only [Except.map] at hok
        have hQ := Except.ok.inj hok
        subst hQ
        simp only [IR.schema]
        rw [mapM_scan_prune_names s _ l hm]
        rw [hco.2] at hn
        exact hn
  | unpivot args input ih =>
    intro ctx Q n hco hreq hmem hok
    by_cases hnil : ctx.acc_projections = []
    · rw [pushdown_empty _ _ hnil] at hok
      have hQ := Except.ok.inj hok
      subst hQ
      exact hmem
    · have hn : n ∈ ctx.projected_names := hreq.resolve_left hnil
      rw [pushdown_unpivot_eq] at hok
      by_cases hOn : args.«on».isEmpty
      · rw [if_pos hOn, pushdown_empty input ProjectionContext.empty rfl] at hok
        simp only [Except.map] at hok
        have hQ := Except.ok.inj hok
        subst hQ
        exact hmem
      · rw [if_neg hOn] at hok
        cases hrec : pushdown_and_assign input (unpivot_child_ctx args input.schema ctx) with
        | error e =>
          rw [hrec] at hok
          simp only [Except.map] at hok
          cases hok
        | ok input' =>
          rw [hrec] at hok
          simp only [Except.map] at hok
          have hQ := Except.ok.inj hok
          subst hQ
          have hcolmem : AExpr.col n ∈ ctx.acc_projections := by
            rw [coherent_acc_eq ctx hco]
            exact List.mem_map_of_mem AExpr.col hn
          by_cases hloc : (unpivot_locals ctx input.schema).isEmpty
          · rw [if_pos hloc]
            have hlocl := (unpivot_locals_isEmpty_iff ctx input.schema).mp hloc
            have hfwd : is_forwardable (AExpr.col n) input.schema = true := by
              by_contra hnf
              have hin : AExpr.col n ∈
                  (split_acc_projections ctx.acc_projections input.schema).2.1 := by
                unfold split_acc_projections
                exact List.mem_filter.mpr ⟨hcolmem, by simpa using hnf⟩
              rw [hlocl] at hin
              cases hin
            have hnin : n ∈ schemaNames input.schema := by
              simpa [is_forwardable] using hfwd
            rcases (mem_unpivot_schema_names args input.schema n).mp hmem with
              ⟨hidx, _⟩ | hvv
            · have hnchild : n ∈ (unpivot_child_ctx args input.schema ctx).projected_names := by
                apply unpivot_child_ctx_names_mono
                exact List.mem_map.mpr
                  ⟨AExpr.col n, List.mem_filter.mpr ⟨hcolmem, hfwd⟩, rfl⟩
              have hsurv := ih (unpivot_child_ctx args input.schema ctx) input' n
                (unpivot_child_ctx_coherent args input.schema ctx) (Or.inr hnchild)
                hnin hrec
              simp only [IR.schema]
              exact (mem_unpivot_schema_names args input'.schema n).mpr
                (Or.inl ⟨hidx, hsurv⟩)
            · simp only [IR.schema]
              exact (mem_unpivot_schema_names args input'.schema n).mpr (Or.inr hvv)
          · rw [if_neg hloc]
            have hlne : ¬ (split_acc_projections ctx.acc_projections input.schema).2.1 = [] := by
              intro hcon
              exact hloc ((unpivot_locals_isEmpty_iff ctx input.schema).mpr hcon)
            have hlocals : unpivot_locals ctx input.schema =
                (split_acc_projections ctx.acc_projections input.schema).2.1 ++
                  (split_acc_projections ctx.acc_projections input.schema).1 := by
              unfold unpivot_locals
              rw [if_neg (by simpa [List.isEmpty_iff] using hlne)]
            simp only [IR.schema, schemaNames, List.map_map]
            rw [hlocals]
            exact List.mem_map.mpr
              ⟨AExpr.col n, mem_filter_split (AExpr.col n) ctx.acc_projections
                input.schema hcolmem, rfl⟩
  | simple_project exprs input ih =>
    intro ctx Q n hco hreq hmem hok
    simp only [pushdown_and_assign] at hok
    rw [pushdown_empty input ProjectionContext.empty rfl] at hok
    simp only [Except.map] at hok
    have hQ := Except.ok.inj hok
    subst hQ
    exact hmem

end PPD

section PlanClaims

open PPD

/-- C1 counterexample: on the spec scenario (required `{id, value}` above the
reshape of `{id, year2020, year2021}` with `index=[id]`,
`on=[year2020, year2021]`), the handler returns the rebuilt reshape node
wrapped in a projection applying `[value, id]` — a wrapping projection IS
added, contrary to the claim. -/
theorem c1_scenario_wraps_projection :
    pushdown_and_assign scPlan scCtx =
      Except.ok (IR.simple_project [AExpr.col "value", AExpr.col "id"]
        (IR.unpivot scArgs (IR.dfscan scSchema))) := by
  rfl

/-- C1 (amended): on the scenario, the child context requests exactly
`{id, year2020, year2021}`, the rebuilt reshape node's output schema is
`{id, variable, value}`, and the result is the rebuilt reshape node wrapped
in a projection applying the combined local list `[value, id]` (because the
required column `value` is not in the child schema, the local group is
non-empty). -/
theorem c1_scenario_amended :
    (unpivot_child_ctx scArgs scSchema scCtx).acc_projections =
      [AExpr.col "id", AExpr.col "year2020", AExpr.col "year2021"] ∧
    (unpivot_child_ctx scArgs scSchema scCtx).projected_names =
      ["id", "year2020", "year2021"] ∧
    (IR.unpivot scArgs (IR.dfscan scSchema)).schema =
      [("id", DType.int), ("variable", DType.str), ("value", DType.int)] ∧
    pushdown_and_assign scPlan scCtx =
      Except.ok (IR.simple_project [AExpr.col "value", AExpr.col "id"]
        (IR.unpivot scArgs (IR.dfscan scSchema))) := by
  exact ⟨rfl, rfl, rfl, rfl⟩

/-- C2: for every reshape node with non-empty `on` and every parent context,
every `index` and `on` column (assumed present in the child's schema, as on
any well-formed reshape) is requested by the child context `process_unpivot`
recurses with — either the context is unconstrained, or the name is in its
requested-name set — and is present in the rewritten child's output
schema. -/
theorem c2_structural_inclusion (args : PPD.UnpivotArgsIR) (input : PPD.IR)
    (ctx : PPD.ProjectionContext) (input' : PPD.IR)
    (hon : args.«on» ≠ [])
    (hcols : ∀ n ∈ args.index ++ args.«on», n ∈ schemaNames input.schema)
    (hrec : pushdown_and_assign input (unpivot_child_ctx args input.schema ctx) =
      Except.ok input') :
    ∀ n ∈ args.index ++ args.«on»,
      ((unpivot_child_ctx args input.schema ctx).acc_projections = [] ∨
        n ∈ (unpivot_child_ctx args input.schema ctx).projected_names) ∧
      n ∈ schemaNames input'.schema := by
  intro n hn
  have hreq : (unpivot_child_ctx args input.schema ctx).acc_projections = [] ∨
      n ∈ (unpivot_child_ctx args input.schema ctx).projected_names := by
    by_cases hc : (unpivot_child_ctx args input.schema ctx).acc_projections = []
    · exact Or.inl hc
    · exact Or.inr (unpivot_child_ctx_mem_index_on args input.schema ctx n hc hn)
  exact ⟨hreq, requested_name_in_result input _ input' n
    (unpivot_child_ctx_coherent args input.schema ctx) hreq (hcols n hn) hrec⟩

/-- C2 witness: the scenario instance — the hypotheses hold and every
`index`/`on` column is requested and survives in the rewritten source. -/
theorem c2_structural_inclusion_witness :
    (scArgs.«on» ≠ [] ∧
      (∀ n ∈ scArgs.index ++ scArgs.«on»,
        n ∈ schemaNames (IR.dfscan scSchema).schema) ∧
      pushdown_and_assign (IR.dfscan scSchema)
        (unpivot_child_ctx scArgs (IR.dfscan scSchema).schema scCtx) =
        Except.ok (IR.dfscan scSchema)) ∧
    (∀ n ∈ scArgs.index ++ scArgs.«on»,
      ((unpivot_child_ctx scArgs (IR.dfscan scSchema).schema scCtx).acc_projections
          = [] ∨
        n ∈ (unpivot_child_ctx scArgs (IR.dfscan scSchema).schema
          scCtx).projected_names) ∧
      n ∈ schemaNames (IR.dfscan scSchema).schema) :=
  ⟨⟨by decide, by decide, rfl⟩,
    c2_structural_inclusion scArgs (IR.dfscan scSchema) scCtx (IR.dfscan scSchema)
      (by decide) (by decide) rfl⟩

/-- C3: for a reshape node with empty `on`, `process_unpivot` is exactly the
restart fallback `no_pushdown_restart_opt` on the unmodified node, and the
overall rewrite returns the node with its subtree untouched (no splitting,
no column injection, no rebuild from a narrowed child, no wrapping
projection), independently of the required-column context. -/
theorem c3_dynamic_branch (args : PPD.UnpivotArgsIR) (input : PPD.IR)
    (ctx : PPD.ProjectionContext) (hon : args.«on» = []) :
    process_unpivot (fun c => pushdown_and_assign input c) args input ctx =
      no_pushdown_restart_opt (fun c => pushdown_and_assign input c) args input ctx ∧
    pushdown_and_assign (IR.unpivot args input) ctx =
      Except.ok (IR.unpivot args input) := by
  constructor
  · unfold process_unpivot
    rw [if_pos (by simp [hon])]
  · rw [pushdown_unpivot_eq, if_pos (by simp [hon]),
      pushdown_empty input ProjectionContext.empty rfl]
    rfl

/-- C3 witness: a reshape with `on=[]` over the scenario source, under the
scenario's required set. -/
theorem c3_dynamic_branch_witness :
    dynArgs.«on» = [] ∧
    (process_unpivot (fun c => pushdown_and_assign (IR.dfscan scSchema) c)
        dynArgs (IR.dfscan scSchema) scCtx =
      no_pushdown_restart_opt
        (fun c => pushdown_and_assign (IR.dfscan scSchema) c)
        dynArgs (IR.dfscan scSchema) scCtx ∧
    pushdown_and_assign (IR.unpivot dynArgs (IR.dfscan scSchema)) scCtx =
      Except.ok (IR.unpivot dynArgs (IR.dfscan scSchema))) :=
  ⟨rfl, c3_dynamic_branch dynArgs (IR.dfscan scSchema) scCtx rfl⟩

/-- C4: in the static branch, once the child rewrite has succeeded, the
result is the rebuilt reshape node alone when the local group of the split
is empty, and otherwise the rebuilt node wrapped in a projection applying
the single combined list: local group extended with the forwardable
group. -/
theorem c4_local_wrap (args : PPD.UnpivotArgsIR) (input : PPD.IR)
    (ctx : PPD.ProjectionContext) (input' : PPD.IR)
    (hon : ¬ args.«on».isEmpty)
    (hrec : pushdown_and_assign input (unpivot_child_ctx args input.schema ctx) =
      Except.ok input') :
    pushdown_and_assign (IR.unpivot args input) ctx =
      if (split_acc_projections ctx.acc_projections input.schema).2.1 = [] then
        Except.ok (IR.unpivot args input')
      else
        Except.ok (IR.simple_project
          ((split_acc_projections ctx.acc_projections input.schema).2.1 ++
            (split_acc_projections ctx.acc_projections input.schema).1)
          (IR.unpivot args input')) := by
  rw [pushdown_unpivot_eq, if_neg hon, hrec]
  simp only [Except.map]
  by_cases h : (split_acc_projections ctx.acc_projections input.schema).2.1 = []
  · rw [if_pos ((unpivot_locals_isEmpty_iff ctx input.schema).mpr h), if_pos h]
  · have hloc : ¬ (unpivot_locals ctx input.schema).isEmpty = true := by
      intro hcon
      exact h ((unpivot_locals_isEmpty_iff ctx input.schema).mp hcon)
    rw [if_neg hloc, if_neg h]
    have hlocals : unpivot_locals ctx input.schema =
        (split_acc_projections ctx.acc_projections input.schema).2.1 ++
          (split_acc_projections ctx.acc_projections input.schema).1 := by
      unfold unpivot_locals
      rw [if_neg (by simpa [List.isEmpty_iff] using h)]
    rw [hlocals]

/-- C4 witness: the scenario instance, whose local group `[value]` is
non-empty, yielding the wrapped combined list `[value, id]`. -/
theorem c4_local_wrap_witness :
    (¬ scArgs.«on».isEmpty ∧
      pushdown_and_assign (IR.dfscan scSchema)
        (unpivot_child_ctx scArgs (IR.dfscan scSchema).schema scCtx) =
        Except.ok (IR.dfscan scSchema)) ∧
    pushdown_and_assign (IR.unpivot scArgs (IR.dfscan scSchema)) scCtx =
      (if (split_acc_projections scCtx.acc_projections
            (IR.dfscan scSchema).schema).2.1 = [] then
        Except.ok (IR.unpivot scArgs (IR.dfscan scSchema))
      else
        Except.ok (IR.simple_project
          ((split_acc_projections scCtx.acc_projections
              (IR.dfscan scSchema).schema).2.1 ++
            (split_acc_projections scCtx.acc_projections
              (IR.dfscan scSchema).schema).1)
          (IR.unpivot scArgs (IR.dfscan scSchema)))) :=
  ⟨⟨by decide, rfl⟩,
    c4_local_wrap scArgs (IR.dfscan scSchema) scCtx (IR.dfscan scSchema)
      (by decide) rfl⟩

/-- C6: if the recursive pushdown into the child returns an error, the
handler returns exactly that error: no rebuilt node, no wrapping projection,
no partial result. -/
theorem c6_error_propagation (args : PPD.UnpivotArgsIR) (input : PPD.IR)
    (ctx : PPD.ProjectionContext) (e : PPD.PolarsError)
    (hon : ¬ args.«on».isEmpty)
    (herr : pushdown_and_assign input (unpivot_child_ctx args input.schema ctx) =
      Except.error e) :
    pushdown_and_assign (IR.unpivot args input) ctx = Except.error e := by
  rw [pushdown_unpivot_eq, if_neg hon, herr]
  rfl

/-- C6 witness: a reshape whose `on` column `zzz` does not exist in the
source `{id}`; the child rewrite fails with `schemaMismatch zzz` and the
handler propagates exactly that error. -/
theorem c6_error_propagation_witness :
    (¬ badArgs.«on».isEmpty ∧
      pushdown_and_assign (IR.dfscan badSchema)
        (unpivot_child_ctx badArgs (IR.dfscan badSchema).schema scCtxId) =
        Except.error (PolarsError.schemaMismatch "zzz")) ∧
    pushdown_and_assign (IR.unpivot badArgs (IR.dfscan badSchema)) scCtxId =
      Except.error (PolarsError.schemaMismatch "zzz") :=
  ⟨⟨by decide, rfl⟩,
    c6_error_propagation badArgs (IR.dfscan badSchema) scCtxId
      (PolarsError.schemaMismatch "zzz") (by decide) rfl⟩

/-- C7: for non-empty `on` and an empty accumulated required-expression set,
the split yields three empty results, the child context is unconstrained
("request everything": the child subtree is kept in full), and the result is
the rebuilt reshape node with no wrapping projection. -/
theorem c7_empty_acc (args : PPD.UnpivotArgsIR) (input : PPD.IR)
    (ctx : PPD.ProjectionContext)
    (hon : ¬ args.«on».isEmpty)
    (hnil : ctx.acc_projections = []) :
    split_acc_projections ctx.acc_projections input.schema = ([], [], []) ∧
    (unpivot_child_ctx args input.schema ctx).acc_projections = [] ∧
    pushdown_and_assign input (unpivot_child_ctx args input.schema ctx) =
      Except.ok input ∧
    pushdown_and_assign (IR.unpivot args input) ctx =
      Except.ok (IR.unpivot args input) := by
  refine ⟨by rw [hnil]; exact split_nil input.schema,
    unpivot_child_ctx_acc_nil args input.schema ctx hnil,
    pushdown_empty _ _ (unpivot_child_ctx_acc_nil args input.schema ctx hnil),
    pushdown_empty _ _ hnil⟩

/-- C7 witness: the scenario reshape under an empty context. -/
theorem c7_empty_acc_witness :
    (¬ scArgs.«on».isEmpty ∧ ProjectionContext.empty.acc_projections = []) ∧
    (split_acc_projections ProjectionContext.empty.acc_projections
        (IR.dfscan scSchema).schema = ([], [], []) ∧
    (unpivot_child_ctx scArgs (IR.dfscan scSchema).schema
        ProjectionContext.empty).acc_projections = [] ∧
    pushdown_and_assign (IR.dfscan scSchema)
        (unpivot_child_ctx scArgs (IR.dfscan scSchema).schema
          ProjectionContext.empty) =
      Except.ok (IR.dfscan scSchema) ∧
    pushdown_and_assign (IR.unpivot scArgs (IR.dfscan scSchema))
        ProjectionContext.empty =
      Except.ok (IR.unpivot scArgs (IR.dfscan scSchema))) :=
  ⟨⟨by decide, rfl⟩,
    c7_empty_acc scArgs (IR.dfscan scSchema) ProjectionContext.empty
      (by decide) rfl⟩

end PlanClaims

namespace PPD

/- Lemmas for the amended schema-preservation statement. -/

theorem add_str_names_sub (name : String) (ctx : ProjectionContext) (n : String)
    (h : n ∈ (add_str_to_accumulated name ctx).projected_names) :
    n ∈ ctx.projected_names ∨ n = name := by
  unfold add_str_to_accumulated at h
  by_cases h1 : ctx.acc_projections.isEmpty
  · rw [if_pos h1] at h
    exact Or.inl h
  · rw [if_neg h1] at h
    by_cases h2 : ctx.projected_names.contains name
    · rw [if_pos h2] at h
      exact Or.inl h
    · rw [if_neg h2] at h
      simp only [List.mem_append, List.mem_singleton] at h
      exact h

theorem fold_add_str_names_sub (l : List String) (ctx : ProjectionContext)
    (n : String)
    (h : n ∈ (l.foldl (fun c name => add_str_to_accumulated name c) ctx).projected_names) :
    n ∈ ctx.projected_names ∨ n ∈ l := by
  induction l generalizing ctx with
  | nil => exact Or.inl h
  | cons m t ih =>
    simp only [List.foldl_cons] at h
    rcases ih _ h with hh | hh
    · rcases add_str_names_sub m ctx n hh with hc | he
      · exact Or.inl hc
      · exact Or.inr (by simp [he])
    · exact Or.inr (List.mem_cons_of_mem m hh)

theorem add_str_names_nodup (name : String) (ctx : ProjectionContext)
    (h : ctx.projected_names.Nodup) :
    (add_str_to_accumulated name ctx).projected_names.Nodup := by
  unfold add_str_to_accumulated
  by_cases h1 : ctx.acc_projections.isEmpty
  · rw [if_pos h1]
    exact h
  · rw [if_neg h1]
    by_cases h2 : ctx.projected_names.contains name
    · rw [if_pos h2]
      exact h
    · rw [if_neg h2]
      have hnm : name ∉ ctx.projected_names := by
        simpa using h2
      simp [List.nodup_append, h, hnm]

theorem fold_add_str_names_nodup (l : List String) (ctx : ProjectionContext)
    (h : ctx.projected_names.Nodup) :
    (l.foldl (fun c name => add_str_to_accumulated name c) ctx).projected_names.Nodup := by
  induction l generalizing ctx with
  | nil => exact h
  | cons m t ih =>
    simp only [List.foldl_cons]
    exact ih _ (add_str_names_nodup m ctx h)

theorem split_fst_map_col (ns : List String) (s : Schema) :
    (split_acc_projections (ns.map AExpr.col) s).1 =
      (ns.filter fun n => (schemaNames s).contains n).map AExpr.col := by
  unfold split_acc_projections
  induction ns with
  | nil => rfl
  | cons n t ih =>
    by_cases hc : (schemaNames s).contains n
    · simp only [List.map_cons, List.filter_cons]
      rw [if_pos (by simpa [is_forwardable] using hc), if_pos hc]
      simpa [List.map_cons] using congrArg (List.cons (AExpr.col n)) ih
    · simp only [List.map_cons, List.filter_cons]
      rw [if_neg (by simpa [is_forwardable] using hc), if_neg hc]
      exact ih

theorem split_snd_map_col (ns : List String) (s : Schema) :
    (split_acc_projections (ns.map AExpr.col) s).2.1 =
      (ns.filter fun n => !(schemaNames s).contains n).map AExpr.col := by
  unfold split_acc_projections
  induction ns with
  | nil => rfl
  | cons n t ih =>
    by_cases hc : (schemaNames s).contains n
    · simp only [List.map_cons, List.filter_cons]
      rw [if_neg (by simpa [is_forwardable] using hc), if_neg (by simpa using hc)]
      exact ih
    · simp only [List.map_cons, List.filter_cons]
      rw [if_pos (by simpa [is_forwardable] using hc), if_pos (by simpa using hc)]
      simpa [List.map_cons] using congrArg (List.cons (AExpr.col n)) ih

theorem split_names_map_col (ns : List String) (s : Schema) :
    (split_acc_projections (ns.map AExpr.col) s).2.2 =
      ns.filter fun n => (schemaNames s).contains n := by
  have h := split_fst_map_col ns s
  unfold split_acc_projections at h ⊢
  simp only at h ⊢
  rw [h, List.map_map]
  exact List.map_id'' (fun x => rfl) _

end PPD

namespace PPD

theorem mapM_cols_ok (ns : List String) (s : Schema)
    (h : ∀ n ∈ ns, n ∈ schemaNames s) :
    (ns.map AExpr.col).mapM (scan_prune_col s) =
      Except.ok (ns.map fun n => (n, (List.lookup n s).getD DType.str)) := by
  induction ns with
  | nil => rfl
  | cons n t ih =>
    have hn : (List.lookup n s).isSome = true :=
      (lookup_isSome_iff n s).mpr (h n (by simp))
    obtain ⟨ty, hty⟩ := Option.isSome_iff_exists.mp hn
    simp only [List.map_cons, List.mapM_cons]
    rw [show scan_prune_col s (AExpr.col n) = Except.ok (n, ty) by
      simp only [scan_prune_col]
      rw [hty]]
    rw [ih fun m hm => h m (List.mem_cons_of_mem n hm)]
    simp [Bind.bind, Except.bind, pure, Except.pure, hty]

theorem lookup_map_self (ns : List String) (f : String → DType) (n : String)
    (h : n ∈ ns) :
    List.lookup n (ns.map fun m => (m, f m)) = some (f n) := by
  induction ns with
  | nil => cases h
  | cons m t ih =>
    by_cases he : n = m
    · subst he
      simp [List.lookup]
    · have hbeq : (n == m) = false := by simp [he]
      simp only [List.map_cons, List.lookup, hbeq]
      exact ih ((List.mem_cons.mp h).resolve_left he)

theorem pushdown_scan_coherent (s : Schema) (c : ProjectionContext)
    (hco : coherent c) (hne : c.acc_projections ≠ [])
    (hall : ∀ n ∈ c.projected_names, n ∈ schemaNames s) :
    pushdown_and_assign (IR.dfscan s) c =
      Except.ok (IR.dfscan
        (c.projected_names.map fun n => (n, (List.lookup n s).getD DType.str))) := by
  simp only [pushdown_and_assign]
  rw [if_neg (by simpa [List.isEmpty_iff] using hne)]
  rw [coherent_acc_eq c hco, mapM_cols_ok c.projected_names s hall]
  rfl

theorem unpivot_schema_congr (args : UnpivotArgsIR) (s' s : Schema)
    (h : ∀ n ∈ args.index ++ args.«on», List.lookup n s' = List.lookup n s) :
    unpivot_schema args s' = unpivot_schema args s := by
  unfold unpivot_schema
  have hidx : (args.index.filterMap fun n => (List.lookup n s').map fun ty => (n, ty)) =
      args.index.filterMap fun n => (List.lookup n s).map fun ty => (n, ty) := by
    apply List.filterMap_congr
    intro n hn
    rw [h n (List.mem_append.mpr (Or.inl hn))]
  have hon : (args.«on».filterMap fun n => List.lookup n s') =
      args.«on».filterMap fun n => List.lookup n s := by
    apply List.filterMap_congr
    intro n hn
    rw [h n (List.mem_append.mpr (Or.inr hn))]
  rw [hidx, hon]

end PPD

namespace PPD

theorem unpivot_child_ctx_names_in_schema (args : UnpivotArgsIR) (s : Schema)
    (ctx : ProjectionContext)
    (hio : ∀ n ∈ args.index ++ args.«on», n ∈ schemaNames s)
    (hco : coherent ctx) :
    ∀ n ∈ (unpivot_child_ctx args s ctx).projected_names, n ∈ schemaNames s := by
  intro n hn
  unfold unpivot_child_ctx at hn
  rcases fold_add_str_names_sub _ _ _ hn with hn2 | hon2
  · rcases fold_add_str_names_sub _ _ _ hn2 with hn3 | hidx2
    · rw [coherent_acc_eq ctx hco, split_names_map_col] at hn3
      simpa using (List.mem_filter.mp hn3).2
    · exact hio n (List.mem_append.mpr (Or.inl hidx2))
  · exact hio n (List.mem_append.mpr (Or.inr hon2))

theorem unpivot_child_rebuild_schema (args : UnpivotArgsIR) (s : Schema)
    (ctx : ProjectionContext)
    (hio : ∀ n ∈ args.index ++ args.«on», n ∈ schemaNames s)
    (hco : coherent ctx) :
    ∃ s2, pushdown_and_assign (IR.dfscan s) (unpivot_child_ctx args s ctx) =
        Except.ok (IR.dfscan s2) ∧
      unpivot_schema args s2 = unpivot_schema args s := by
  by_cases hcnil : (unpivot_child_ctx args s ctx).acc_projections = []
  · exact ⟨s, pushdown_empty _ _ hcnil, rfl⟩
  · have hall := unpivot_child_ctx_names_in_schema args s ctx hio hco
    refine ⟨(unpivot_child_ctx args s ctx).projected_names.map
        fun n => (n, (List.lookup n s).getD DType.str),
      pushdown_scan_coherent s _ (unpivot_child_ctx_coherent args s ctx)
        hcnil hall, ?_⟩
    apply unpivot_schema_congr
    intro n hn
    have hnc : n ∈ (unpivot_child_ctx args s ctx).projected_names :=
      unpivot_child_ctx_mem_index_on args s ctx n hcnil hn
    have hns : n ∈ schemaNames s := hio n hn
    obtain ⟨ty, hty⟩ := Option.isSome_iff_exists.mp ((lookup_isSome_iff n s).mpr hns)
    rw [lookup_map_self (unpivot_child_ctx args s ctx).projected_names _ n hnc, hty]
    simp

end PPD

namespace PPD

theorem interp_mem_schema (sch : Schema) (ctx : ProjectionContext)
    (hco : coherent ctx)
    (hin : ∀ n ∈ ctx.projected_names, n ∈ schemaNames sch) :
    ∀ p ∈ ctx.acc_projections.map fun e => (e.output_name, e.dtype_in sch),
      p ∈ sch := by
  intro p hp
  obtain ⟨e, he, hpe⟩ := List.mem_map.mp hp
  rw [coherent_acc_eq ctx hco] at he
  obtain ⟨n, hn, hne⟩ := List.mem_map.mp he
  subst hne
  subst hpe
  obtain ⟨ty, hty⟩ := Option.isSome_iff_exists.mp
    ((lookup_isSome_iff n sch).mpr (hin n hn))
  simpa [AExpr.output_name, AExpr.dtype_in, hty] using lookup_mem n ty sch hty

end PPD

section PlanClaimsFive

open PPD

/-- C5 counterexample: for the scenario plan with initial required set
`[id]`, the root schema after the pass is the full reshape output
`{id, variable, value}` — not the direct interpretation `{id}` of the
required set against the original root schema.  The rewrite does change the
output schema visible above the handled node. -/
theorem c5_schema_not_preserved :
    ¬ ((pushdown_and_assign scPlan scCtxId).map IR.schema =
      Except.ok (interp_required scCtxId.acc_projections scPlan.schema)) := by
  intro h
  have hl : (pushdown_and_assign scPlan scCtxId).map IR.schema =
      Except.ok [("id", DType.int), ("variable", DType.str),
        ("value", DType.int)] := rfl
  have hr : interp_required scCtxId.acc_projections scPlan.schema =
      [("id", DType.int)] := rfl
  rw [hl, hr] at h
  exact absurd (Except.ok.inj h) (by decide)

/-- C5 (amended): for a reshape (non-empty `on`, `index`/`on` columns present
in the source schema) over a source, and a coherent required-column context
whose columns are drawn from the root schema, the pass succeeds and the
resulting root schema (a) contains every `(name, type)` pair of the direct
interpretation of the requirement against the original root schema, (b)
contains only pairs of the original root schema, (c) is a permutation of
the direct interpretation whenever the local group is non-empty (the
wrapping projection restores the requested set, but with local-group columns
first rather than in the requested order), and (d) with an empty local group
is the full original root schema, a superset of the interpretation. -/
theorem c5_schema_preservation_amended (args : PPD.UnpivotArgsIR)
    (s : PPD.Schema) (ctx : PPD.ProjectionContext)
    (hon : ¬ args.«on».isEmpty)
    (hio : ∀ n ∈ args.index ++ args.«on», n ∈ schemaNames s)
    (hco : coherent ctx)
    (hin : ∀ n ∈ ctx.projected_names,
      n ∈ schemaNames (IR.unpivot args (IR.dfscan s)).schema) :
    ∃ Q, pushdown_and_assign (IR.unpivot args (IR.dfscan s)) ctx = Except.ok Q ∧
      (∀ p ∈ interp_required ctx.acc_projections
          (IR.unpivot args (IR.dfscan s)).schema, p ∈ Q.schema) ∧
      (∀ p ∈ Q.schema, p ∈ (IR.unpivot args (IR.dfscan s)).schema) ∧
      ((split_acc_projections ctx.acc_projections s).2.1 ≠ [] →
        Q.schema.Perm (interp_required ctx.acc_projections
          (IR.unpivot args (IR.dfscan s)).schema)) ∧
      ((split_acc_projections ctx.acc_projections s).2.1 = [] →
        Q.schema = (IR.unpivot args (IR.dfscan s)).schema) := by
  by_cases hnil : ctx.acc_projections = []
  · refine ⟨IR.unpivot args (IR.dfscan s), pushdown_empty _ _ hnil, ?_, ?_, ?_, ?_⟩
    · intro p hp
      simpa [interp_required, hnil] using hp
    · intro p hp
      exact hp
    · intro hL
      exact absurd (by rw [hnil]; rfl) hL
    · intro _
      rfl
  · obtain ⟨s2, hchild, hs2⟩ := unpivot_child_rebuild_schema args s ctx hio hco
    have hinterp : interp_required ctx.acc_projections
        (IR.unpivot args (IR.dfscan s)).schema =
        ctx.acc_projections.map fun e =>
          (e.output_name, e.dtype_in (unpivot_schema args s)) := by
      unfold interp_required
      rw [if_neg (by simpa [List.isEmpty_iff] using hnil)]
      rfl
    have hred : pushdown_and_assign (IR.unpivot args (IR.dfscan s)) ctx =
        (pushdown_and_assign (IR.dfscan s) (unpivot_child_ctx args s ctx)).map
          fun input' =>
            if (unpivot_locals ctx s).isEmpty then IR.unpivot args input'
            else IR.simple_project (unpivot_locals ctx s) (IR.unpivot args input') := by
      rw [pushdown_unpivot_eq, if_neg hon]
      rfl
    rw [hchild] at hred
    simp only [Except.map] at hred
    by_cases hL : (split_acc_projections ctx.acc_projections s).2.1 = []
    · have hLe : (unpivot_locals ctx s).isEmpty = true :=
        (unpivot_locals_isEmpty_iff ctx s).mpr hL
      rw [if_pos hLe] at hred
      refine ⟨IR.unpivot args (IR.dfscan s2), hred, ?_, ?_, ?_, ?_⟩
      · intro p hp
        rw [hinterp] at hp
        have hmem := interp_mem_schema (unpivot_schema args s) ctx hco
          (by simpa [IR.schema] using hin) p hp
        simpa [IR.schema, hs2] using hmem
      · intro p hp
        simpa [IR.schema, hs2] using hp
      · intro hcon
        exact absurd hL hcon
      · intro _
        simp only [IR.schema]
        exact hs2
    · have hLe : ¬ (unpivot_locals ctx s).isEmpty = true := by
        intro hcon
        exact hL ((unpivot_locals_isEmpty_iff ctx s).mp hcon)
      rw [if_neg hLe] at hred
      have hlocals : unpivot_locals ctx s =
          (split_acc_projections ctx.acc_projections s).2.1 ++
            (split_acc_projections ctx.acc_projections s).1 := by
        unfold unpivot_locals
        rw [if_neg (by simpa [List.isEmpty_iff] using hL)]
      have hperm : ((split_acc_projections ctx.acc_projections s).2.1 ++
          (split_acc_projections ctx.acc_projections s).1).Perm
            ctx.acc_projections := by
      -- local group is the non-forwardable filter, forwardable group the rest
        have h1 := List.filter_append_perm (fun e => is_forwardable e s)
          ctx.acc_projections
        have h2 : (split_acc_projections ctx.acc_projections s).2.1 ++
            (split_acc_projections ctx.acc_projections s).1 =
            ctx.acc_projections.filter (fun e => !is_forwardable e s) ++
              ctx.acc_projections.filter (fun e => is_forwardable e s) := rfl
        rw [h2]
        exact (List.perm_append_comm).trans h1
      have hQschema : (IR.simple_project (unpivot_locals ctx s)
          (IR.unpivot args (IR.dfscan s2))).schema =
          (unpivot_locals ctx s).map fun e =>
            (e.output_name, e.dtype_in (unpivot_schema args s)) := by
        simp [IR.schema, hs2]
      have hQperm : (IR.simple_project (unpivot_locals ctx s)
          (IR.unpivot args (IR.dfscan s2))).schema.Perm
            (interp_required ctx.acc_projections
              (IR.unpivot args (IR.dfscan s)).schema) := by
        rw [hQschema, hinterp, hlocals]
        exact List.Perm.map _ hperm
      refine ⟨IR.simple_project (unpivot_locals ctx s)
        (IR.unpivot args (IR.dfscan s2)), hred, ?_, ?_, fun _ => hQperm,
        fun hcon => absurd hcon hL⟩
      · intro p hp
        exact hQperm.mem_iff.mpr hp
      · intro p hp
        have hp2 := hQperm.mem_iff.mp hp
        rw [hinterp] at hp2
        have hmem := interp_mem_schema (unpivot_schema args s) ctx hco
          (by simpa [IR.schema] using hin) p hp2
        simpa [IR.schema] using hmem

/-- C5 witness: the scenario with required set `{id, value}`: the pass
succeeds, every interpreted pair is in the result schema, the result schema
only holds pairs of the original root schema, the local group `[value]`
being non-empty the result schema is a permutation of the interpretation,
and with an empty local group it would be the full original root schema. -/
theorem c5_schema_preservation_amended_witness :
    (¬ scArgs.«on».isEmpty ∧
      (∀ n ∈ scArgs.index ++ scArgs.«on», n ∈ schemaNames scSchema) ∧
      coherent scCtx ∧
      (∀ n ∈ scCtx.projected_names,
        n ∈ schemaNames (IR.unpivot scArgs (IR.dfscan scSchema)).schema)) ∧
    (∃ Q, pushdown_and_assign (IR.unpivot scArgs (IR.dfscan scSchema)) scCtx =
        Except.ok Q ∧
      (∀ p ∈ interp_required scCtx.acc_projections
          (IR.unpivot scArgs (IR.dfscan scSchema)).schema, p ∈ Q.schema) ∧
      (∀ p ∈ Q.schema, p ∈ (IR.unpivot scArgs (IR.dfscan scSchema)).schema) ∧
      ((split_acc_projections scCtx.acc_projections scSchema).2.1 ≠ [] →
        Q.schema.Perm (interp_required scCtx.acc_projections
          (IR.unpivot scArgs (IR.dfscan scSchema)).schema)) ∧
      ((split_acc_projections scCtx.acc_projections scSchema).2.1 = [] →
        Q.schema = (IR.unpivot scArgs (IR.dfscan scSchema)).schema)) :=
  ⟨⟨by decide, by decide, by decide, by decide⟩,
    c5_schema_preservation_amended scArgs scSchema scCtx (by decide) (by decide)
      (by decide) (by decide)⟩

end PlanClaimsFive

namespace Clip

/-- The `self` length check of `clip` can never fail: if `s.len ≠ 1` then
the broadcast length is `s.len` itself. -/
theorem broadcast_self_ok (a b c : Nat) :
    (a == broadcast_len a b c || a == 1) = true := by
  unfold broadcast_len
  by_cases h : a = 1
  · simp [h]
  · have hne : (a != 1) = true := by simpa using h
    have hfind : ([a, b, c].find? fun l => l != 1) = some a := by
      simp [List.find?, hne]
    simp [hfind]

/-- The dtype-restoring step always returns the original dtype. -/
theorem restore_original_dtype (d : DataType) (vals : List (Option Int)) :
    (restore_original d vals).dtype = d := by
  cases d <;> rfl

/-- The dtype-restoring step never changes the physical output values. -/
theorem restore_original_values (d : DataType) (vals : List (Option Int)) :
    (restore_original d vals).values = vals := by
  cases d <;> rfl

/-- A strict cast preserves the element list. -/
theorem strict_cast_values (s : Series) (d : DataType) (s2 : Series)
    (h : strict_cast s d = Except.ok s2) : s2.values = s.values ∧ s2.dtype = d := by
  unfold strict_cast at h
  split at h
  · cases h
    exact ⟨rfl, rfl⟩
  · cases h

end Clip

section ClipClaims

/-- C8 counterexample: with `self` of dtype `int8` and bound series of dtype
`int64` (all lengths 1), every enumerated precondition holds — the physical
dtype is primitive numeric and every length is 1 — yet `clip` returns an
error (the strict cast of the min bound 1000 to `int8` fails).  So the
functions do not return an error exactly when one of the enumerated
preconditions fails. -/
theorem c8_error_without_precondition_failure :
    Clip.DataType.int8.to_physical.is_primitive_numeric = true ∧
    Clip.broadcast_len 1 1 1 = 1 ∧
    Clip.clip ⟨Clip.DataType.int8, [some 0]⟩ ⟨Clip.DataType.int64, [some 1000]⟩
        ⟨Clip.DataType.int64, [some 5]⟩ =
      Except.error (Clip.PolarsError.strictCastFailed Clip.DataType.int8) :=
  ⟨rfl, rfl, rfl⟩

/-- C8 (amended): the enumerated checks are run in order before any bound is
cast or element computed — a non-numeric physical dtype yields the
InvalidOperation error; with a numeric dtype, a `min`/`max` length that is
neither 1 nor the common broadcast length yields the corresponding
length-mismatch error (the `self` length check cannot fail, since `n` is
`self`'s own length whenever it differs from 1); and when the checks pass
and both bound casts succeed, the call succeeds.  A failing bound cast after
the checks pass produces an additional error outside the claim's
enumeration. -/
theorem c8_preconditions_checked_first :
    (∀ s mi ma : Clip.Series,
      ¬ s.dtype.to_physical.is_primitive_numeric = true →
      Clip.clip s mi ma = Except.error (Clip.PolarsError.invalidOperation
        "`clip` only supports physical numeric types")) ∧
    (∀ s mi ma : Clip.Series,
      s.dtype.to_physical.is_primitive_numeric = true →
      ¬ (mi.len == Clip.broadcast_len s.len mi.len ma.len || mi.len == 1) = true →
      Clip.clip s mi ma = Except.error (Clip.PolarsError.lengthMismatch "clip"
        mi.len (Clip.broadcast_len s.len mi.len ma.len) (some "min") (some 1))) ∧
    (∀ s mi ma : Clip.Series,
      s.dtype.to_physical.is_primitive_numeric = true →
      (mi.len == Clip.broadcast_len s.len mi.len ma.len || mi.len == 1) = true →
      ¬ (ma.len == Clip.broadcast_len s.len mi.len ma.len || ma.len == 1) = true →
      Clip.clip s mi ma = Except.error (Clip.PolarsError.lengthMismatch "clip"
        ma.len (Clip.broadcast_len s.len mi.len ma.len) (some "max") (some 2))) ∧
    (∀ s mi ma mi2 ma2 : Clip.Series,
      s.dtype.to_physical.is_primitive_numeric = true →
      (mi.len == Clip.broadcast_len s.len mi.len ma.len || mi.len == 1) = true →
      (ma.len == Clip.broadcast_len s.len mi.len ma.len || ma.len == 1) = true →
      Clip.strict_cast mi s.dtype = Except.ok mi2 →
      Clip.strict_cast ma s.dtype = Except.ok ma2 →
      Clip.clip s mi ma = Except.ok (Clip.restore_original s.dtype
        (Clip.clip_helper_both_bounds s.values mi2.values ma2.values))) ∧
    (∀ s ma : Clip.Series,
      ¬ s.dtype.to_physical.is_primitive_numeric = true →
      Clip.clip_max s ma = Except.error (Clip.PolarsError.invalidOperation
        "`clip` only supports physical numeric types")) ∧
    (∀ s ma : Clip.Series,
      s.dtype.to_physical.is_primitive_numeric = true →
      ¬ (s.len == ma.len || s.len == 1 || ma.len == 1) = true →
      Clip.clip_max s ma = Except.error (Clip.PolarsError.lengthMismatch
        "clip(max)" s.len ma.len none none)) ∧
    (∀ s ma ma2 : Clip.Series,
      s.dtype.to_physical.is_primitive_numeric = true →
      (s.len == ma.len || s.len == 1 || ma.len == 1) = true →
      Clip.strict_cast ma s.dtype = Except.ok ma2 →
      Clip.clip_max s ma = Except.ok (Clip.restore_original s.dtype
        (Clip.clip_helper_single_bound s.values ma2.values Clip.clamp_max))) ∧
    (∀ s mi : Clip.Series,
      ¬ s.dtype.to_physical.is_primitive_numeric = true →
      Clip.clip_min s mi = Except.error (Clip.PolarsError.invalidOperation
        "`clip` only supports physical numeric types")) ∧
    (∀ s mi : Clip.Series,
      s.dtype.to_physical.is_primitive_numeric = true →
      ¬ (s.len == mi.len || s.len == 1 || mi.len == 1) = true →
      Clip.clip_min s mi = Except.error (Clip.PolarsError.lengthMismatch
        "clip(min)" s.len mi.len none none)) ∧
    (∀ s mi mi2 : Clip.Series,
      s.dtype.to_physical.is_primitive_numeric = true →
      (s.len == mi.len || s.len == 1 || mi.len == 1) = true →
      Clip.strict_cast mi s.dtype = Except.ok mi2 →
      Clip.clip_min s mi = Except.ok (Clip.restore_original s.dtype
        (Clip.clip_helper_single_bound s.values mi2.values Clip.clamp_min))) := by
  refine ⟨?_, ?_, ?_, ?_, ?_, ?_, ?_, ?_, ?_, ?_⟩
  · intro s mi ma hnum
    simp only [Clip.clip]
    rw [if_pos (by simpa using hnum)]
  · intro s mi ma hnum h2
    simp only [Clip.clip]
    rw [if_neg (by simp [hnum]), if_neg (by simp [Clip.broadcast_self_ok]),
      if_pos (by simpa using h2)]
  · intro s mi ma hnum h2 h3
    simp only [Clip.clip]
    rw [if_neg (by simp [hnum]), if_neg (by simp [Clip.broadcast_self_ok]),
      if_neg (by simp [h2]), if_pos (by simpa using h3)]
  · intro s mi ma mi2 ma2 hnum h2 h3 hc1 hc2
    simp only [Clip.clip]
    rw [if_neg (by simp [hnum]), if_neg (by simp [Clip.broadcast_self_ok]),
      if_neg (by simp [h2]), if_neg (by simp [h3])]
    rw [hc1]
    simp only [Bind.bind, Except.bind]
    rw [hc2]
    rfl
  · intro s ma hnum
    simp only [Clip.clip_max]
    rw [if_pos (by simpa using hnum)]
  · intro s ma hnum h2
    simp only [Clip.clip_max]
    rw [if_neg (by simp [hnum]), if_pos (by simpa using h2)]
  · intro s ma ma2 hnum h2 hc
    simp only [Clip.clip_max]
    rw [if_neg (by simp [hnum]), if_neg (by simp [h2])]
    rw [hc]
    rfl
  · intro s mi hnum
    simp only [Clip.clip_min]
    rw [if_pos (by simpa using hnum)]
  · intro s mi hnum h2
    simp only [Clip.clip_min]
    rw [if_neg (by simp [hnum]), if_pos (by simpa using h2)]
  · intro s mi mi2 hnum h2 hc
    simp only [Clip.clip_min]
    rw [if_neg (by simp [hnum]), if_neg (by simp [h2])]
    rw [hc]
    rfl

/-- C8 witness: the three error conjuncts and a success conjunct exercised
at concrete inputs. -/
theorem c8_preconditions_checked_first_witness :
    (¬ Clip.DataType.string.to_physical.is_primitive_numeric = true ∧
      Clip.clip ⟨Clip.DataType.string, []⟩ ⟨Clip.DataType.int64, [some 1]⟩
          ⟨Clip.DataType.int64, [some 2]⟩ =
        Except.error (Clip.PolarsError.invalidOperation
          "`clip` only supports physical numeric types")) ∧
    (Clip.clip ⟨Clip.DataType.int64, [some 1, some 2, some 3]⟩
        ⟨Clip.DataType.int64, [some 0, some 0]⟩
        ⟨Clip.DataType.int64, [some 9]⟩ =
      Except.error (Clip.PolarsError.lengthMismatch "clip" 2 3
        (some "min") (some 1))) ∧
    (Clip.clip ⟨Clip.DataType.int64, [some 1]⟩ ⟨Clip.DataType.int64, [some 0]⟩
        ⟨Clip.DataType.int64, [some 9]⟩ =
      Except.ok (Clip.restore_original Clip.DataType.int64
        (Clip.clip_helper_both_bounds [some 1] [some 0] [some 9]))) :=
  ⟨⟨by decide,
      c8_preconditions_checked_first.1 ⟨Clip.DataType.string, []⟩
        ⟨Clip.DataType.int64, [some 1]⟩ ⟨Clip.DataType.int64, [some 2]⟩
        (by decide)⟩,
    c8_preconditions_checked_first.2.1 ⟨Clip.DataType.int64, [some 1, some 2, some 3]⟩
      ⟨Clip.DataType.int64, [some 0, some 0]⟩ ⟨Clip.DataType.int64, [some 9]⟩
      (by decide) (by decide),
    c8_preconditions_checked_first.2.2.2.1 ⟨Clip.DataType.int64, [some 1]⟩
      ⟨Clip.DataType.int64, [some 0]⟩ ⟨Clip.DataType.int64, [some 9]⟩
      ⟨Clip.DataType.int64, [some 0]⟩ ⟨Clip.DataType.int64, [some 9]⟩
      (by decide) (by decide) (by decide) (by decide) (by decide)⟩

/-- C9: evaluation of `clip` at the failing input.  With `s = [0, 0]`,
scalar `min = [5]` and vector `max = [null, 10]`, the code returns `[0, 5]`:
at position 0, where `max` is null, `clip_binary`'s `(Some(v), None)` arm
passes the value through and the scalar min bound 5 is silently dropped,
although the claim (and the function's own documentation) requires the min
side to still constrain the value.  The equivalent non-broadcast call with
`min = [5, 5]` takes the `clip_ternary` path and correctly returns
`[5, 5]`. -/
theorem c9_null_bound_drops_other_bound :
    Clip.clip ⟨Clip.DataType.int64, [some 0, some 0]⟩
        ⟨Clip.DataType.int64, [some 5]⟩
        ⟨Clip.DataType.int64, [none, some 10]⟩ =
      Except.ok ⟨Clip.DataType.int64, [some 0, some 5]⟩ ∧
    Clip.clip ⟨Clip.DataType.int64, [some 0, some 0]⟩
        ⟨Clip.DataType.int64, [some 5, some 5]⟩
        ⟨Clip.DataType.int64, [none, some 10]⟩ =
      Except.ok ⟨Clip.DataType.int64, [some 5, some 5]⟩ :=
  ⟨rfl, rfl⟩

/-- C10: every successful `clip`, `clip_max` or `clip_min` returns a series
with the input series' original dtype (decimal rebuilt with the same
precision and scale, logical types cast back, physical types passed
through). -/
theorem c10_dtype_preserved :
    (∀ s mi ma out : Clip.Series,
      Clip.clip s mi ma = Except.ok out → out.dtype = s.dtype) ∧
    (∀ s ma out : Clip.Series,
      Clip.clip_max s ma = Except.ok out → out.dtype = s.dtype) ∧
    (∀ s mi out : Clip.Series,
      Clip.clip_min s mi = Except.ok out → out.dtype = s.dtype) := by
  refine ⟨?_, ?_, ?_⟩
  · intro s mi ma out h
    simp only [Clip.clip] at h
    split at h
    · cases h
    · split at h
      · cases h
      · split at h
        · cases h
        · split at h
          · cases h
          · cases hmi : Clip.strict_cast mi s.dtype with
            | error e =>
              rw [hmi] at h
              simp [Bind.bind, Except.bind] at h
            | ok mi2 =>
              rw [hmi] at h
              simp only [Bind.bind, Except.bind] at h
              cases hma : Clip.strict_cast ma s.dtype with
              | error e =>
                rw [hma] at h
                simp [Except.bind] at h
              | ok ma2 =>
                rw [hma] at h
                simp only [Except.bind] at h
                have h2 := Except.ok.inj h
                rw [← h2]
                exact Clip.restore_original_dtype s.dtype _
  · intro s ma out h
    simp only [Clip.clip_max] at h
    split at h
    · cases h
    · split at h
      · cases h
      · cases hma : Clip.strict_cast ma s.dtype with
        | error e =>
          rw [hma] at h
          simp [Bind.bind, Except.bind] at h
        | ok ma2 =>
          rw [hma] at h
          simp only [Bind.bind, Except.bind] at h
          have h2 := Except.ok.inj h
          rw [← h2]
          exact Clip.restore_original_dtype s.dtype _
  · intro s mi out h
    simp only [Clip.clip_min] at h
    split at h
    · cases h
    · split at h
      · cases h
      · cases hmi : Clip.strict_cast mi s.dtype with
        | error e =>
          rw [hmi] at h
          simp [Bind.bind, Except.bind] at h
        | ok mi2 =>
          rw [hmi] at h
          simp only [Bind.bind, Except.bind] at h
          have h2 := Except.ok.inj h
          rw [← h2]
          exact Clip.restore_original_dtype s.dtype _

set_option maxRecDepth 16384 in
/-- C10 witness: a logical `date` input to `clip`, a `decimal` input to
`clip_max` and an `int8` input to `clip_min` all come back with their
original dtype. -/
theorem c10_dtype_preserved_witness :
    (Clip.clip ⟨Clip.DataType.date, [some 5]⟩ ⟨Clip.DataType.int32, [some 1]⟩
        ⟨Clip.DataType.int32, [some 3]⟩ =
      Except.ok ⟨Clip.DataType.date, [some 3]⟩ ∧
      (Clip.Series.mk Clip.DataType.date [some 3]).dtype = Clip.DataType.date) ∧
    (Clip.clip_max ⟨Clip.DataType.decimal (some 10) 2, [some 500]⟩
        ⟨Clip.DataType.int64, [some 100]⟩ =
      Except.ok ⟨Clip.DataType.decimal (some 10) 2, [some 100]⟩ ∧
      (Clip.Series.mk (Clip.DataType.decimal (some 10) 2) [some 100]).dtype =
        Clip.DataType.decimal (some 10) 2) ∧
    (Clip.clip_min ⟨Clip.DataType.int8, [some (-100)]⟩
        ⟨Clip.DataType.int8, [some 0]⟩ =
      Except.ok ⟨Clip.DataType.int8, [some 0]⟩ ∧
      (Clip.Series.mk Clip.DataType.int8 [some 0]).dtype = Clip.DataType.int8) :=
  ⟨⟨by decide, c10_dtype_preserved.1 ⟨Clip.DataType.date, [some 5]⟩
      ⟨Clip.DataType.int32, [some 1]⟩ ⟨Clip.DataType.int32, [some 3]⟩
      ⟨Clip.DataType.date, [some 3]⟩ (by decide)⟩,
    ⟨by decide, c10_dtype_preserved.2.1 ⟨Clip.DataType.decimal (some 10) 2, [some 500]⟩
      ⟨Clip.DataType.int64, [some 100]⟩
      ⟨Clip.DataType.decimal (some 10) 2, [some 100]⟩ (by decide)⟩,
    ⟨by decide, c10_dtype_preserved.2.2 ⟨Clip.DataType.int8, [some (-100)]⟩
      ⟨Clip.DataType.int8, [some 0]⟩ ⟨Clip.DataType.int8, [some 0]⟩ (by decide)⟩⟩

end ClipClaims
